import Mathlib

/-!
Shallow embedding of cobbler's generic item engine (`src/cobbler/items/item.py`):
attribute resolution (`_resolve`, `_resolve_dict`), the parent graph
(`parent` setter, `children`, `tree_walk`, `get_conceptual_parent`),
the dependency index (`TYPE_DEPENDENCIES`, `descendants`), the cache
invalidation routine (`_clean_dict_cache`) and the match engine
(`__find_compare`, `find_match`, `find_match_single_key`).

Python attribute values are dynamically typed; the embedding uses a closed
value universe (`SVal` for scalars inside dicts, `PropVal` for attribute
values).  An item's private attributes (`self._kernel_options`, `self._distro`,
...) are modelled as an association list `props` keyed by the attribute name
without its leading underscore; `getattr(self, "_" + n)` is `props.lookup n`,
and a failed lookup models Python's `AttributeError`.  Settings fields are a
second association list.  The live collections of `api.get_items` are one flat
list of items, filtered by `COLLECTION_TYPE` (named `typeName` here; in
`item.py` `TYPE_NAME` and `COLLECTION_TYPE` coincide for every concrete type).

Recursive traversals (`tree_walk`, `descendants`, resolution through the
parent chain) terminate in Python only on well-formed object graphs; the
embedding makes them total with an explicit fuel parameter, and the theorems
carry well-formedness/fuel hypotheses where the recursion matters.
-/

/-- Modelled from the spec: the `INHERITED` sentinel (`enums.VALUE_INHERITED`
from `cobbler/enums.py`, which is not part of the excerpt).  The docstrings in
`item.py` name its concrete value `<<inherit>>`. -/
def VALUE_INHERITED : String := "<<inherit>>"

/-- Scalar values that can occur inside a dict-valued attribute.
`noneV` is Python's `None`. -/
inductive SVal where
  | str (v : String)
  | int (v : Int)
  | bool (v : Bool)
  | noneV
deriving DecidableEq, Repr

/-- Modelled from the spec: the "annihilator" delete-marker value recognised by
`utils.dict_annihilate` (from `cobbler/utils.py`, not part of the excerpt):
a key whose value is this marker is deleted from a merged dictionary.
Cobbler uses the string tilde. -/
def ANNIHILATOR : SVal := SVal.str "~"

/-- Values of item attributes and settings fields, as seen by `getattr`.
A dict-valued attribute stores either a concrete dict or the string
`VALUE_INHERITED` (Python type `Union[dict, str]`); a scalar inheritable
attribute stores a scalar or the string `VALUE_INHERITED`. -/
inductive PropVal where
  | str (v : String)
  | int (v : Int)
  | bool (v : Bool)
  | strList (v : List String)
  | dict (d : List (String × SVal))
  | noneV
deriving DecidableEq, Repr

/-- The `INHERITED` sentinel as an attribute value. -/
def INHERITED : PropVal := PropVal.str VALUE_INHERITED

/-- An item of one of the concrete families.  `typeName` is
`TYPE_NAME`/`COLLECTION_TYPE`; `parentName` is `self._parent`; `depth` is
`self._depth` (a Python `int`); `inmemory` is `self._inmemory`; `props` holds
the remaining private attributes (`self._kernel_options`, `self._distro`, ...)
keyed without the leading underscore; `interfaces` models the nested
`interfaces` sub-mapping that only systems expose (interface name to
interface fields), `none` when the item has no such attribute. -/
structure Item where
  name : String
  typeName : String
  parentName : String
  depth : Int
  inmemory : Bool
  props : List (String × PropVal)
  interfaces : Option (List (String × List (String × SVal)))
deriving DecidableEq, Repr

/-- The global settings object (`api.settings()`), an external collaborator:
a flat bag of named fields plus the `cache_enabled` toggle read by
`_clean_dict_cache`. -/
structure Settings where
  cacheEnabled : Bool
  fields : List (String × PropVal)
deriving DecidableEq, Repr

/-- The world visible to one item operation: the live item collections
(one flat list, partitioned by `typeName`), the settings, and the
per-item resolved-dict cache validity flags (keyed by `(typeName, name)`;
a key absent from the list is a valid/untouched cache entry). -/
structure World where
  items : List Item
  settings : Settings
  caches : List ((String × String) × Bool)
deriving DecidableEq, Repr

/-- `api.get_items(collection_type)`: the live collection of one family. -/
def getItems (w : World) (collectionType : String) : List Item :=
  w.items.filter (fun it => it.typeName == collectionType)

/-- `collection.get(name)`: name lookup inside one collection. -/
def getByName (coll : List Item) (name : String) : Option Item :=
  coll.find? (fun it => it.name == name)

/-- The `parent` property getter (`item.py` lines 638-649): `None` when
`self._parent` is empty, else a name lookup in the item's own collection. -/
def parentItem (w : World) (it : Item) : Option Item :=
  if it.parentName = "" then none
  else getByName (getItems w it.typeName) it.parentName

/-- `Item.TYPE_DEPENDENCIES` (`item.py` lines 141-161): for each family, the
(dependent family, dependent attribute) pairs that may reference an item of
that family by name. -/
def TYPE_DEPENDENCIES : List (String × List (String × String)) :=
  [ ("repo", [("profile", "repos")]),
    ("distro", [("profile", "distro")]),
    ("menu", [("menu", "parent"), ("image", "menu"), ("profile", "menu")]),
    ("profile", [("profile", "parent"), ("system", "profile")]),
    ("image", [("system", "image")]),
    ("system", []) ]

/-- `Item.LOGICAL_INHERITANCE` (`item.py` lines 166-190): per family, the
previous-level and next-level (family, reference attribute) entries. -/
def LOGICAL_INHERITANCE :
    List (String × (List (String × String) × List (String × String))) :=
  [ ("distro", ([], [("profile", "distro")])),
    ("profile", ([("distro", "distro")], [("system", "profile")])),
    ("image", ([], [("system", "image")])),
    ("system", ([("image", "image"), ("profile", "profile")], [])) ]

/-- Iterated `parent` lookup: `upChain w k it` follows the same-type parent
pointer `k` times. -/
def upChain (w : World) : Nat → Item → Option Item
  | 0, it => some it
  | k + 1, it => (parentItem w it).bind (upChain w k)

/-- The `while next_obj is not None` walk at the start of
`get_conceptual_parent` (`item.py` lines 689-693): the topmost same-type
ancestor.  Fuel bounds the walk; `none` means the fuel ran out while a parent
still existed (in Python the loop would keep going). -/
def topAncestor (w : World) : Nat → Item → Option Item
  | 0, it => match parentItem w it with
      | none => some it
      | some _ => none
  | k + 1, it => match parentItem w it with
      | none => some it
      | some p => topAncestor w k p

/-- Python `str.lower()`, characterwise. -/
def strLower (s : String) : String := String.mk (s.data.map Char.toLower)

/-- Python `c in s` for a single character. -/
def strHasChar (s : String) (c : Char) : Bool := s.data.contains c

/-- Helper for `str.startswith` over character lists. -/
def startsAux : List Char → List Char → Bool
  | _, [] => true
  | [], _ :: _ => false
  | c :: cs, p :: ps => c == p && startsAux cs ps

/-- Python `s.startswith(p)`. -/
def strStartsWith (s p : String) : Bool := startsAux s.data p.data

/-- Python `s[1:]`. -/
def strDrop1 (s : String) : String := String.mk (s.data.drop 1)

/-- Split a character list at the first occurrence of `c`; `none` when `c`
does not occur. -/
def splitAtChar (c : Char) : List Char → Option (List Char × List Char)
  | [] => none
  | x :: xs =>
    if x = c then some ([], xs)
    else (splitAtChar c xs).map (fun p => (x :: p.1, p.2))

/-- Parse the body of an `fnmatch` character class.  The input is the text
after the opening `[`; the result is (negated?, class body, rest after the
closing `]`).  Following `fnmatch.translate`: a leading `!` negates, a `]`
directly after `[` or `[!` is a literal member, and `none` (no closing `]`)
makes the `[` a literal character. -/
def parseCharClass (cs : List Char) : Option (Bool × List Char × List Char) :=
  let (neg, cs1) := match cs with
    | '!' :: r => (true, r)
    | _ => (false, cs)
  match cs1 with
  | ']' :: r => (splitAtChar ']' r).map (fun p => (neg, ']' :: p.1, p.2))
  | _ => (splitAtChar ']' cs1).map (fun p => (neg, p.1, p.2))

/-- Membership of a character in an `fnmatch` class body, with `a-z` ranges;
a `-` that is first or last is a literal member. -/
def classMatch : List Char → Char → Bool
  | [], _ => false
  | a :: '-' :: b :: rest, c =>
    (a.val ≤ c.val && c.val ≤ b.val) || classMatch rest c
  | a :: rest, c => a == c || classMatch rest c

/-- Fueled glob matcher for `fnmatch.fnmatch(text, pattern)` semantics
(`*`, `?`, `[...]`, `[!...]`).  Fuel is an upper bound on the recursion
depth; every step shortens pattern or text, so
`pattern.length + text.length + 1` is always enough. -/
def globMatchF : Nat → List Char → List Char → Bool
  | 0, _, _ => false
  | fuel + 1, p, t =>
    match p, t with
    | [], [] => true
    | [], _ :: _ => false
    | '*' :: ps, ts =>
      globMatchF fuel ps ts ||
        (match ts with
         | [] => false
         | _ :: ts' => globMatchF fuel ('*' :: ps) ts')
    | '?' :: _, [] => false
    | '?' :: ps, _ :: ts => globMatchF fuel ps ts
    | '[' :: ps, ts =>
      (match parseCharClass ps with
       | some (neg, body, rest) =>
         (match ts with
          | [] => false
          | c :: ts' => (classMatch body c != neg) && globMatchF fuel rest ts')
       | none =>
         (match ts with
          | [] => false
          | c :: ts' => (c == '[') && globMatchF fuel ps ts'))
    | pc :: ps, [] => false && (pc :: ps).isEmpty
    | pc :: ps, c :: ts => (pc == c) && globMatchF fuel ps ts

/-- `fnmatch.fnmatch(text, pattern)` (on a case-sensitive platform; the
callers in `__find_compare` lowercase both sides first). -/
def fnmatchB (text pattern : String) : Bool :=
  globMatchF (pattern.data.length + text.data.length + 1) pattern.data text.data

/-- Split a string on spaces, dropping empty tokens. -/
def splitTokensAux : List Char → List Char → List String
  | [], acc => if acc.isEmpty then [] else [String.mk acc.reverse]
  | c :: cs, acc =>
    if c = ' ' then
      if acc.isEmpty then splitTokensAux cs []
      else String.mk acc.reverse :: splitTokensAux cs []
    else splitTokensAux cs (c :: acc)

/-- Modelled from the spec: `input_converters.input_string_or_list` (from
`cobbler/utils/input_converters.py`, not part of the excerpt) applied to a
string pattern: "parses the pattern into one-or-more required tokens"
(whitespace-delimited). -/
def inputStringOrList (s : String) : List String :=
  splitTokensAux s.data []

/-- One `key=value` token; a token without `=` maps the token to `None`. -/
def splitEqToken (tok : String) : String × SVal :=
  match splitAtChar '=' tok.data with
  | some (k, v) => (String.mk k, SVal.str (String.mk v))
  | none => (tok, SVal.noneV)

/-- Modelled from the spec: `input_converters.input_string_or_dict` (not part
of the excerpt) applied to a string pattern: "parses the pattern into
key=value tokens". -/
def inputStringOrDict (s : String) : List (String × SVal) :=
  (inputStringOrList s).map splitEqToken

/-- Errors raised by the match engine: Python `TypeError` from
`__find_compare`, `AttributeError` from calling `.lower()` on a non-string
pattern, and `KeyError` from `data[key]` on a missing key. -/
inductive MatchErr where
  | typeErr (msg : String)
  | attrErr (msg : String)
  | keyErr (key : String)
deriving DecidableEq, Repr

/-- Scalar values embedded into the attribute-value universe. -/
def SVal.toProp : SVal → PropVal
  | .str v => .str v
  | .int v => .int v
  | .bool v => .bool v
  | .noneV => .noneV

/-- `Item.__find_compare(from_search, from_obj)` (`item.py` lines 192-247).
If the candidate `from_obj` is a string: case-insensitive comparison, by
`fnmatch` glob when the lowered pattern contains `?`, `*` or `[`, else exact
equality (the pattern must be a string too, or `.lower()` raises).  Otherwise,
for a string pattern: a list candidate requires every parsed token to be a
member; a dict candidate requires every parsed `key=value` pair to be present
with an equal value; a boolean candidate compares against the truthy token
set.  Any other combination raises `TypeError`. -/
def findCompare (fromSearch fromObj : PropVal) : Except MatchErr Bool :=
  match fromObj, fromSearch with
  | .str o, .str p =>
    let ol := strLower o
    let pl := strLower p
    if !(strHasChar pl '?') && !(strHasChar pl '*') && !(strHasChar pl '[') then
      .ok (ol == pl)
    else
      .ok (fnmatchB ol pl)
  | .str _, _ => .error (.attrErr "lower")
  | .strList l, .str p =>
    .ok ((inputStringOrList p).all (fun tok => l.contains tok))
  | .dict d, .str p =>
    .ok ((inputStringOrDict p).all (fun kv =>
      match d.lookup kv.1 with
      | some v => v == kv.2
      | none => false))
  | .bool b, .str p =>
    .ok ((["true", "1", "y", "yes"].contains (strLower p)) == b)
  | _, _ => .error (.typeErr "find cannot compare type")

/-- The flattened attribute dictionary of an item, as handed to the match
engine.  The scalar fields are listed directly; `interfaces` is kept nested
as in `System.to_dict`. -/
structure ItemData where
  fields : List (String × PropVal)
  interfaces : Option (List (String × List (String × SVal)))
deriving DecidableEq, Repr

/-- Modelled from the spec: `BaseItem.to_dict` (from
`cobbler/items/abstract/base_item.py`, not part of the excerpt) flattens the
item into a key-value map of its attributes; the identity/graph fields are
included alongside the item-specific attributes. -/
def toDict (it : Item) : ItemData :=
  { fields :=
      [("name", .str it.name), ("parent", .str it.parentName),
       ("depth", .int it.depth), ("inmemory", .bool it.inmemory)] ++ it.props,
    interfaces := it.interfaces }

/-- Python `key in data` on the flattened dictionary. -/
def ItemData.hasKey (d : ItemData) (k : String) : Bool :=
  (d.fields.lookup k).isSome || (k == "interfaces" && d.interfaces.isSome)

/-- The interface-level field names special-cased by `find_match_single_key`
(`item.py` lines 843-868). -/
def INTERFACE_KEYS : List String :=
  ["cnames", "connected_mode", "if_gateway", "ipv6_default_gateway",
   "ipv6_mtu", "ipv6_prefix", "ipv6_secondaries", "ipv6_static_routes",
   "management", "mtu", "static", "mac_address", "ip_address", "ipv6_address",
   "netmask", "virt_bridge", "dhcp_tag", "dns_name", "static_routes",
   "interface_type", "interface_master", "bonding_opts", "bridge_opts",
   "interface"]

/-- The `for (name, interface) in data["interfaces"].items()` loop in
`find_match_single_key`: returns `true` as soon as the pattern equals an
interface's key name, or matches the whitelisted field's value within an
interface; errors from `__find_compare` propagate. -/
def findInterfacesLoop (ifs : List (String × List (String × SVal)))
    (key : String) (value : Option String) : Except MatchErr Bool :=
  match ifs with
  | [] => .ok false
  | (name, interface) :: rest =>
    if value == some name then .ok true
    else
      match value with
      | some v =>
        (match interface.lookup key with
         | some iv =>
           match findCompare iv.toProp (.str v) with
           | .error e => .error e
           | .ok true => .ok true
           | .ok false => findInterfacesLoop rest key value
         | none => findInterfacesLoop rest key value)
      | none => findInterfacesLoop rest key value

/-- `Item.find_match_single_key(data, key, value, no_errors)` (`item.py`
lines 828-889), translated statement by statement.  The final fallthrough
reads `data[key]`; a missing key there is Python's `KeyError` (it is also
used for `key = "interfaces"`, whose nested value this model does not embed
as a `PropVal`; no claim reaches that line with that key). -/
def findMatchSingleKey (data : ItemData) (key : String) (value : Option String)
    (noErrors : Bool) : Except MatchErr Bool :=
  let keyFoundAlready := data.interfaces.isSome && INTERFACE_KEYS.contains key
  let afterKeyBlock : Except MatchErr Bool :=
    match value with
    | none => .ok true
    | some v =>
      match data.fields.lookup key with
      | some dv => findCompare (.str v) dv
      | none => .error (.keyErr key)
  let loopRes : Except MatchErr Bool :=
    match data.interfaces with
    | some ifs =>
      if INTERFACE_KEYS.contains key then findInterfacesLoop ifs key value
      else .ok false
    | none => .ok false
  match loopRes with
  | .error e => .error e
  | .ok true => .ok true
  | .ok false =>
    if !(data.hasKey key) then
      if !keyFoundAlready then
        if !noErrors then .ok false
        else afterKeyBlock
      else
        if value.isSome then .ok false
        else afterKeyBlock
    else afterKeyBlock

/-- `Item.find_match(kwargs, no_errors)` (`item.py` lines 807-826): every
criterion must match; a pattern starting with `~` negates the match of the
pattern without the `~`; a `None` pattern is passed through unchanged. -/
def findMatch (data : ItemData) (kwargs : List (String × Option String))
    (noErrors : Bool) : Except MatchErr Bool :=
  match kwargs with
  | [] => .ok true
  | (key, value) :: rest =>
    let res : Except MatchErr Bool :=
      match value with
      | some v =>
        if strStartsWith v "~" then
          match findMatchSingleKey data key (some (strDrop1 v)) noErrors with
          | .error e => .error e
          | .ok b => .ok (!b)
        else findMatchSingleKey data key (some v) noErrors
      | none => findMatchSingleKey data key none noErrors
    match res with
    | .error e => .error e
    | .ok false => .ok false
    | .ok true => findMatch data rest noErrors

/-- Modelled from the spec: `api.find_items(family, {attr: pat},
return_list=True)` — the FamilyCollectionLookup collaborator (not part of the
excerpt) "given a family identifier and a criteria mapping, returns matching
items (delegates to MatchEngine)".  An item whose match raises is treated as
not matching (the claims only apply this to well-typed criteria). -/
def findItemsByCrit (w : World) (family : String) (key : String)
    (pat : String) : List Item :=
  (getItems w family).filter (fun j =>
    match findMatch (toDict j) [(key, some pat)] false with
    | .ok true => true
    | _ => false)

/-- Modelled from the spec: `api.find_items(family, name=n,
return_list=False)` — name-based lookup in a family collection. -/
def findByName (w : World) (family : String) (n : String) : Option Item :=
  getByName (getItems w family) n

/-- The error raised by the `parent` setter (`CX` from `cobbler/cexceptions.py`;
the spec's `InvalidParentError`). -/
inductive SetParentErr where
  | cx (msg : String)
deriving DecidableEq, Repr

/-- The `parent` property setter (`item.py` lines 651-670), translated
statement by statement on an explicit item value: an empty name clears
`self._parent` and returns at once (the early `return` skips the depth
update); a name equal to the item's own raises `CX`; a name not found in the
item's own collection raises `CX`; otherwise `self._parent` is stored and
`self.depth` is set to the found parent's depth plus one.  A raise happens
before any assignment, so the first component is the unchanged item whenever
the second is an error. -/
def setParentRun (w : World) (it : Item) (parent : String) :
    Item × Option SetParentErr :=
  if parent = "" then ({ it with parentName := "" }, none)
  else if parent = it.name then (it, some (.cx "self parentage is weird"))
  else
    match getByName (getItems w it.typeName) parent with
    | none =>
      (it, some (.cx ("profile " ++ parent ++ " not found, inheritance not possible")))
    | some found =>
      ({ it with parentName := parent, depth := found.depth + 1 }, none)

/-- A parentless sample profile, used by concrete instantiations. -/
def sampleProfileRoot : Item := ⟨"p0", "profile", "", 0, true, [], none⟩

/-- A sample profile at depth 1 below `sampleProfileRoot`. -/
def sampleProfileP1 : Item := ⟨"p1", "profile", "p0", 1, true, [], none⟩

/-- A parentless sample profile to be reparented. -/
def sampleProfileP2 : Item := ⟨"p2", "profile", "", 0, true, [], none⟩

/-- An item whose name was never assigned (`self._name` is still empty);
the constructor comment in the `parent` setter notes that the setter may run
before the name is set. -/
def unnamedProfile : Item := ⟨"", "profile", "", 0, true, [], none⟩

/-- A sample world holding the three sample profiles. -/
def sampleWorldProfiles : World :=
  ⟨[sampleProfileRoot, sampleProfileP1, sampleProfileP2], ⟨true, []⟩, []⟩

/-- The per-entry body of the `for prev_level in ...` loop of
`get_conceptual_parent` (`item.py` lines 696-706): read the top ancestor's
raw reference attribute `_<attr>` and, when it is a non-empty string, look
the named item up in the previous-level family.  A `None`-valued attribute is
skipped (`is not None`); a missing or non-string one is treated as absent
(for the attributes named by the table, concrete item types always define
them as strings). -/
def prevLevelHit (w : World) (top : Item) (entry : String × String) : Option Item :=
  match top.props.lookup entry.2 with
  | some (.str refName) => if refName ≠ "" then findByName w entry.1 refName else none
  | _ => none

/-- `Item.get_conceptual_parent()` (`item.py` lines 680-707): walk to the
topmost same-type ancestor, then return the first previous-level item found
through the `LOGICAL_INHERITANCE` entries of that ancestor's family. -/
def getConceptualParent (w : World) (fuel : Nat) (it : Item) : Option Item :=
  match topAncestor w fuel it with
  | none => none
  | some curr =>
    match LOGICAL_INHERITANCE.lookup curr.typeName with
    | none => none
    | some levels => levels.1.findSome? (prevLevelHit w curr)

/-- Written from the spec sentence for C8 (to be compared with
`getConceptualParent`): "walks same-type parents to the topmost ancestor,
then consults the static logical-inheritance table for that top ancestor's
family to find a configured cross-type previous-level reference attribute;
resolves and returns that cross-type item if its reference attribute is
non-empty and not `INHERITED`". -/
def conceptualParentSpec (w : World) (fuel : Nat) (it : Item) : Option Item :=
  match topAncestor w fuel it with
  | none => none
  | some curr =>
    match LOGICAL_INHERITANCE.lookup curr.typeName with
    | none => none
    | some levels =>
      levels.1.findSome? (fun entry =>
        match curr.props.lookup entry.2 with
        | some (.str refName) =>
          if refName ≠ "" ∧ refName ≠ VALUE_INHERITED then findByName w entry.1 refName
          else none
        | _ => none)

/-- Failures of attribute resolution: `missingAttr` models
`getattr(self, "_" + name)` raising `AttributeError`; `unresolvable` is the
explicit raise of `_resolve` (its fields mirror the message: item type, item
name, property name); `typeMismatch` models `dict.update` on a non-dict
raising; `fuelOut` is the model artifact for exhausted fuel. -/
inductive ResErr where
  | missingAttr (itemName propName : String)
  | unresolvable (itemType itemName propName : String)
  | typeMismatch (propName : String)
  | fuelOut
deriving DecidableEq, Repr

/-- `Item.__common_resolve` (`item.py` lines 317-325): the raw attribute
value (`proxy_url_*` property names read the attribute `_proxy`) and the
settings field name (`owners` reads the settings field `default_ownership`). -/
def commonResolve (it : Item) (propertyName : String) : Option PropVal × String :=
  let settingsName := propertyName
  let propertyName1 :=
    if strStartsWith propertyName "proxy_url_" then "proxy" else propertyName
  let settingsName1 :=
    if propertyName1 = "owners" then "default_ownership" else settingsName
  (it.props.lookup propertyName1, settingsName1)

/-- `Item.__resolve_get_parent_or_settings` (`item.py` lines 327-339).
`resolveFn` is the recursive property read used for the parent and the
conceptual parent; a raising getter maps to `none`, which is exactly what
`hasattr` turns a raising `getattr` into, and a `None`-returning getter maps
to `some .noneV` (Python then returns that `None`, stopping the search). -/
def resolveSources (w : World) (resolveFn : Item → String → Option PropVal)
    (it : Item) (cp : Option Item) (propertyName settingsName : String) :
    Option PropVal :=
  match (parentItem w it).bind (fun p => resolveFn p propertyName) with
  | some v => some v
  | none =>
    match cp.bind (fun c => resolveFn c propertyName) with
    | some v => some v
    | none =>
      match w.settings.fields.lookup settingsName with
      | some v => some v
      | none => w.settings.fields.lookup ("default_" ++ settingsName)

/-- `Item._resolve` (`item.py` lines 341-365), with fuel bounding the
recursive property reads of ancestors: the raw value when it is not the
sentinel; otherwise the first of same-type parent / conceptual parent /
settings / `default_`-prefixed settings, raising when that search produces
nothing (`possible_return is not None` also rejects a found `None`). -/
def resolveScalar (w : World) : Nat → Item → String → Except ResErr PropVal
  | 0, _, _ => .error .fuelOut
  | fuel + 1, it, propertyName =>
    match commonResolve it propertyName with
    | (none, _) => .error (.missingAttr it.name propertyName)
    | (some attributeValue, settingsName) =>
      if attributeValue = INHERITED then
        match resolveSources w (fun j q => (resolveScalar w fuel j q).toOption) it
            (getConceptualParent w fuel it) propertyName settingsName with
        | some v =>
          if v = PropVal.noneV then
            .error (.unresolvable it.typeName it.name propertyName)
          else .ok v
        | none => .error (.unresolvable it.typeName it.name propertyName)
      else .ok attributeValue

/-- Modelled from the spec: `utils.dict_annihilate` (from
`cobbler/utils.py`, not part of the excerpt) deletes every key whose value
is the annihilator marker. -/
def dictAnnihilate (d : List (String × SVal)) : List (String × SVal) :=
  d.filter (fun kv => kv.2 != ANNIHILATOR)

/-- Python `dict.update(upd)` on `base`: keys already in `base` keep their
position but take the value from `upd`; keys only in `upd` are appended in
`upd` order. -/
def dictUpdate (base upd : List (String × SVal)) : List (String × SVal) :=
  base.map (fun kv =>
    match upd.lookup kv.1 with
    | some v => (kv.1, v)
    | none => kv) ++
    upd.filter (fun kv => (base.lookup kv.1).isNone)

/-- `Item._resolve_dict` (`item.py` lines 388-414), with fuel bounding the
recursive dict read of the conceptual parent: start from the conceptual
parent's same-named resolved dict when that read exists and succeeds, else
from the settings field of that name when present, else empty; overlay the
item's own raw dict on top unless it is the sentinel; then annihilate.
A raw or settings value that is neither a dict nor the sentinel would make
`dict.update` raise in Python and is a `typeMismatch` here. -/
def resolveDict (w : World) : Nat → Item → String → Except ResErr (List (String × SVal))
  | 0, _, _ => .error .fuelOut
  | fuel + 1, it, propertyName =>
    match it.props.lookup propertyName with
    | none => .error (.missingAttr it.name propertyName)
    | some attributeValue =>
      let cpDict : Option (List (String × SVal)) :=
        (getConceptualParent w fuel it).bind
          (fun cp => (resolveDict w fuel cp propertyName).toOption)
      let base : Except ResErr (List (String × SVal)) :=
        match cpDict with
        | some d => .ok d
        | none =>
          match w.settings.fields.lookup propertyName with
          | some (.dict d) => .ok d
          | some _ => .error (.typeMismatch propertyName)
          | none => .ok []
      match base with
      | .error e => .error e
      | .ok merged =>
        if attributeValue = INHERITED then .ok (dictAnnihilate merged)
        else
          match attributeValue with
          | .dict d => .ok (dictAnnihilate (dictUpdate merged d))
          | _ => .error (.typeMismatch propertyName)

/-- The `children` property (`item.py` lines 723-735): the items of the same
collection whose stored parent name (`get_parent`) equals this item's name. -/
def childrenOf (w : World) (it : Item) : List Item :=
  (getItems w it.typeName).filter (fun obj => obj.parentName == it.name)

/-- `Item.tree_walk()` (`item.py` lines 737-747), with fuel bounding the
recursion depth (zero fuel truncates the walk; the theorems require enough
fuel for the world's depth range): each child followed by its own subtree,
depth-first and pre-order. -/
def treeWalk (w : World) : Nat → Item → List Item
  | 0, _ => []
  | fuel + 1, it =>
    (childrenOf w it).flatMap (fun child => child :: treeWalk w fuel child)

/-- Python `set.add`: extend the accumulator unless the element is already
present (keeping first-insertion order; the claims about `descendants` are
order-independent). -/
def insertU (acc : List Item) (a : Item) : List Item :=
  if a ∈ acc then acc else acc ++ [a]

/-- Python `set.update` with a list of new elements. -/
def unionU (acc : List Item) (xs : List Item) : List Item :=
  xs.foldl insertU acc

/-- One `TYPE_DEPENDENCIES` entry of the `descendants` loop (`item.py`
lines 762-770): the dependent-family items whose reference attribute matches
the child's name are added, then each one's own `descendants` (computed by
`descFn`). -/
def depEntryStep (w : World) (descFn : Item → Option (List Item))
    (childName : String) (acc : List Item) (entry : String × String) :
    Option (List Item) :=
  let depTypeItems := findItemsByCrit w entry.1 entry.2 childName
  let acc1 := unionU acc depTypeItems
  depTypeItems.foldlM (fun a depItem => (descFn depItem).map (unionU a)) acc1

/-- `Item.descendants` (`item.py` lines 749-771), with fuel bounding the
recursion through dependent items (`none` is the model artifact for
exhausted fuel): the set of `tree_walk`, then for every member of
`tree_walk ++ [self]` and every dependency entry of its family, the matching
dependent items and, transitively, their own descendants.  (Every concrete
family is a key of `TYPE_DEPENDENCIES`; the `getD` default mirrors that a
missing key cannot occur.) -/
def descendants (w : World) : Nat → Item → Option (List Item)
  | 0, _ => none
  | fuel + 1, it =>
    let childs := treeWalk w (fuel + 1) it
    (childs ++ [it]).foldlM
      (fun acc child =>
        ((TYPE_DEPENDENCIES.lookup child.typeName).getD []).foldlM
          (depEntryStep w (descendants w fuel) child.name) acc)
      (unionU [] childs)

/-- Store one cache-validity entry (any previous entry for the key is
dropped; only the `lookup` view of this map matters). -/
def setAssoc (l : List ((String × String) × Bool)) (k : String × String)
    (b : Bool) : List ((String × String) × Bool) :=
  (k, b) :: l.filter (fun kv => kv.1 != k)

/-- Modelled from the spec: `ItemCache.set_dict_cache(None, True)` and
`ItemCache.clean_dict_cache()` (from the abstract base item and its cache,
not part of the excerpt) both invalidate an item's resolved-dict cache
entry. -/
def invalidateCache (w : World) (key : String × String) : World :=
  { w with caches := setAssoc w.caches key false }

/-- The cache-validity flag of an item; an entry never touched is valid. -/
def cacheValid (w : World) (key : String × String) : Bool :=
  (w.caches.lookup key).getD true

/-- The properties of `item.py` decorated `@InheritableProperty` or
`@InheritableDictProperty` (`kernel_options`, `kernel_options_post`,
`autoinstall_meta`, `fetchable_files`; `boot_files` and `template_files`
are plain `LazyProperty`), i.e. the attributes whose class-level property
passes the `isinstance` test in `_clean_dict_cache`. -/
def isInheritableProp (n : String) : Bool :=
  ["kernel_options", "kernel_options_post", "autoinstall_meta",
   "fetchable_files"].contains n

/-- The condition of the cascading branch of `_clean_dict_cache` (`item.py`
lines 966-972): an attribute name was given, the item is in memory, the
class-level property of the attribute (without its leading underscore) is
inheritable, the collection type is not the abstract `generic`, and the item
is registered in its collection. -/
def cascadeCond (w : World) (it : Item) (name : Option String) : Bool :=
  match name with
  | none => false
  | some n =>
    it.inmemory && isInheritableProp (strDrop1 n) &&
      (it.typeName != "generic") &&
      (getByName (getItems w it.typeName) it.name).isSome

/-- `Item._clean_dict_cache(name)` (`item.py` lines 957-978), with fuel for
the `descendants` computation: a no-op when `cache_enabled` is off;
otherwise the cascading branch invalidates the resolved-dict cache of every
descendant, and the item's own cache entry is invalidated in every case.
`name` is the private attribute name as passed by `__setattr__`
(`item.py` lines 306-315), leading underscore included. -/
def cleanDictCache (w : World) (fuel : Nat) (it : Item) (name : Option String) :
    World :=
  if !w.settings.cacheEnabled then w
  else
    let w1 :=
      if cascadeCond w it name then
        ((descendants w fuel it).getD []).foldl
          (fun acc depItem => invalidateCache acc (depItem.typeName, depItem.name)) w
      else w
    invalidateCache w1 (it.typeName, it.name)

/-- Well-formedness of a world: the collection holds distinct items with
nonempty names, names are unique within a family, and `depth` is one more
than the parent's depth whenever a same-type parent resolves — which is what
the `parent` setter maintains, and which makes the same-type parent graph
acyclic. -/
structure WF (w : World) : Prop where
  itemsNodup : w.items.Nodup
  namesNonempty : ∀ it ∈ w.items, it.name ≠ ""
  namesUnique : ∀ a ∈ w.items, ∀ b ∈ w.items,
    a.typeName = b.typeName → a.name = b.name → a = b
  depthParent : ∀ it ∈ w.items, ∀ p, parentItem w it = some p →
    it.depth = p.depth + 1

/-- `y` is a strict same-type descendant of `x` in `w`: following `y`'s
parent pointer a positive number of times reaches `x`. -/
def StrictDesc (w : World) (x y : Item) : Prop :=
  y ∈ w.items ∧ ∃ k, 1 ≤ k ∧ upChain w k y = some x

/-- Sample distro for concrete instantiations. -/
def sampleDistro : Item :=
  ⟨"d0", "distro", "", 0, true,
   [("kernel_options", .dict [("a", .str "1"), ("del", ANNIHILATOR)]),
    ("breed", .str "redhat"), ("status", .str "production")], none⟩

/-- Sample top-level profile on `sampleDistro`, inheriting its options. -/
def sampleProfile1 : Item :=
  ⟨"pr1", "profile", "", 0, true,
   [("kernel_options", INHERITED), ("distro", .str "d0"),
    ("owners", INHERITED), ("status", .str "testing")], none⟩

/-- Sample subprofile of `sampleProfile1` overriding `kernel_options`. -/
def sampleProfile2 : Item :=
  ⟨"pr2", "profile", "pr1", 1, true,
   [("kernel_options", .dict [("b", .str "2")]), ("distro", .str ""),
    ("owners", .strList ["admin"]), ("status", INHERITED)], none⟩

/-- Sample system attached to `sampleProfile2`. -/
def sampleSystem : Item :=
  ⟨"s1", "system", "", 0, true,
   [("profile", .str "pr2"), ("image", .str ""),
    ("kernel_options", INHERITED), ("owners", INHERITED)],
   some [("default", [("mac_address", .str "aa:bb")])]⟩

/-- Sample settings with a default-ownership fallback. -/
def sampleSettings : Settings :=
  ⟨true, [("default_ownership", .strList ["admin"]),
          ("proxy_url_ext", .str "proxyhost")]⟩

/-- Sample world: a distro, two chained profiles, and a system. -/
def sampleWorld : World :=
  ⟨[sampleDistro, sampleProfile1, sampleProfile2, sampleSystem],
   sampleSettings, []⟩

/-- The same-type parent's property value as seen by `hasattr`/`getattr` in
`__resolve_get_parent_or_settings`: `none` when there is no parent or its
read raises. -/
def parentSourceVal (w : World) (fuel : Nat) (it : Item) (propertyName : String) :
    Option PropVal :=
  (parentItem w it).bind (fun p => (resolveScalar w fuel p propertyName).toOption)

/-- The conceptual parent's property value as seen by `hasattr`/`getattr` in
`__resolve_get_parent_or_settings`. -/
def conceptualSourceVal (w : World) (fuel : Nat) (it : Item)
    (propertyName : String) : Option PropVal :=
  (getConceptualParent w fuel it).bind
    (fun c => (resolveScalar w fuel c propertyName).toOption)

/-- The conceptual parent's resolved dict as seen by `hasattr`/`getattr` in
`_resolve_dict`: `none` when there is no conceptual parent or its read
raises. -/
def conceptualDictVal (w : World) (fuel : Nat) (it : Item)
    (propertyName : String) : Option (List (String × SVal)) :=
  (getConceptualParent w fuel it).bind
    (fun cp => (resolveDict w fuel cp propertyName).toOption)

/-- A decidable restatement of `WF` (the parent bounded over the item list),
usable by `decide` at concrete worlds. -/
abbrev wfCheck (w : World) : Prop :=
  w.items.Nodup ∧ (∀ it ∈ w.items, it.name ≠ "") ∧
  (∀ a ∈ w.items, ∀ b ∈ w.items, a.typeName = b.typeName → a.name = b.name → a = b) ∧
  (∀ it ∈ w.items, ∀ p ∈ w.items, parentItem w it = some p → it.depth = p.depth + 1)

/-- One item's dependency contribution inside `descendants` (`item.py`
lines 761-770): through some `TYPE_DEPENDENCIES` entry of `m`'s family, `y`
is either a matching dependent item of `m`, or a member of such a dependent
item's own (recursively computed) descendants. -/
def depContribution (w : World) (descFn : Item → Option (List Item))
    (m y : Item) : Prop :=
  ∃ entry ∈ (TYPE_DEPENDENCIES.lookup m.typeName).getD [],
    y ∈ findItemsByCrit w entry.1 entry.2 m.name ∨
    ∃ d ∈ findItemsByCrit w entry.1 entry.2 m.name,
      ∃ l, descFn d = some l ∧ y ∈ l

-- ===== Theorems =====

theorem findInterfacesLoop_none (ifs : List (String × List (String × SVal)))
    (key : String) : findInterfacesLoop ifs key none = .ok false := by
  induction ifs with
  | nil => rfl
  | cons hd tl ih => simp [findInterfacesLoop, ih]

/-- C9: value comparison on string candidates is case-insensitive exact match,
switching to case-insensitive glob match exactly when the pattern contains a
glob metacharacter (`?`, `*`, `[`); a criterion pattern starting with `~`
makes `find_match` negate the result of matching the pattern stripped of the
leading `~`; concretely, pattern `*.example.com` matches candidate
`host.example.com`, pattern `exact` matches candidate `EXACT`, and criterion
pattern `~yes` against boolean candidate `true` yields `false`. -/
theorem c9_find_compare :
    (∀ p o : String,
      (¬ (strHasChar (strLower p) '?' = true ∨ strHasChar (strLower p) '*' = true ∨
          strHasChar (strLower p) '[' = true) →
        findCompare (.str p) (.str o) = .ok (strLower o == strLower p)) ∧
      ((strHasChar (strLower p) '?' = true ∨ strHasChar (strLower p) '*' = true ∨
          strHasChar (strLower p) '[' = true) →
        findCompare (.str p) (.str o) = .ok (fnmatchB (strLower o) (strLower p)))) ∧
    (∀ (data : ItemData) (k v : String) (ne : Bool), strStartsWith v "~" = true →
      findMatch data [(k, some v)] ne =
        (match findMatchSingleKey data k (some (strDrop1 v)) ne with
         | .ok b => .ok (!b)
         | .error e => .error e)) ∧
    findCompare (.str "*.example.com") (.str "host.example.com") = .ok true ∧
    findCompare (.str "exact") (.str "EXACT") = .ok true ∧
    findMatch ⟨[("enabled", .bool true)], none⟩ [("enabled", some "~yes")] false = .ok false := by
  refine ⟨fun p o => ⟨fun h => ?_, fun h => ?_⟩, fun data k v ne hneg => ?_, rfl, rfl, rfl⟩
  · simp only [not_or, Bool.not_eq_true] at h
    simp [findCompare, h.1, h.2.1, h.2.2]
  · simp only [findCompare]
    rcases h with h | h | h <;> simp [h]
  · simp only [findMatch, hneg, if_pos]
    rcases findMatchSingleKey data k (some (strDrop1 v)) ne with e | b
    · rfl
    · rcases b <;> rfl

/-- Witness for `c9_find_compare`: its conditional parts applied at concrete
inputs. -/
theorem c9_find_compare_witness :
    findCompare (.str "abc") (.str "ABC") = .ok (strLower "ABC" == strLower "abc") ∧
    findCompare (.str "a*c") (.str "abc") = .ok (fnmatchB (strLower "abc") (strLower "a*c")) ∧
    findMatch ⟨[("x", .str "v")], none⟩ [("x", some "~v")] false =
      (match findMatchSingleKey (⟨[("x", .str "v")], none⟩ : ItemData) "x" (some (strDrop1 "~v")) false with
       | .ok b => .ok (!b)
       | .error e => .error e) :=
  ⟨(c9_find_compare.1 "abc" "ABC").1 (by decide),
   (c9_find_compare.1 "a*c" "abc").2 (by decide),
   c9_find_compare.2.1 ⟨[("x", .str "v")], none⟩ "x" "~v" false (by decide)⟩

/-- C10: for every item and every key present in its flattened attribute
dictionary, a criterion mapping that key to the pattern `None` makes the
single-key match, and hence `find_match` with that single criterion, return
`true` regardless of the stored value, with no comparison performed. -/
theorem c10_none_matches (it : Item) (k : String) (ne : Bool)
    (hk : (toDict it).hasKey k = true) :
    findMatchSingleKey (toDict it) k none ne = .ok true ∧
    findMatch (toDict it) [(k, none)] ne = .ok true := by
  have h1 : findMatchSingleKey (toDict it) k none ne = .ok true := by
    unfold findMatchSingleKey
    rcases hif : (toDict it).interfaces with _ | ifs
    · simp [hif, hk]
    · simp [hif, findInterfacesLoop_none, hk]
  refine ⟨h1, ?_⟩
  simp [findMatch, h1]

/-- Witness for `c10_none_matches`: a concrete system item whose flattened
dictionary has the key `kernel_options`. -/
theorem c10_none_matches_witness :
    findMatchSingleKey
      (toDict ⟨"s1", "system", "", 0, true,
        [("kernel_options", .dict [("a", .str "1")])],
        some [("default", [("mac_address", SVal.str "aa:bb")])]⟩)
      "kernel_options" none false = .ok true ∧
    findMatch
      (toDict ⟨"s1", "system", "", 0, true,
        [("kernel_options", .dict [("a", .str "1")])],
        some [("default", [("mac_address", SVal.str "aa:bb")])]⟩)
      [("kernel_options", none)] false = .ok true :=
  c10_none_matches _ "kernel_options" false (by decide)


/-- Counterexample to C6: clearing the parent does not recompute `depth`.
A profile at depth 1 whose parent is cleared to the empty string keeps
depth 1, although the claim demands `depth(x) = 0` whenever `parentName` is
empty immediately after `setParent` returns. -/
theorem c6_counterexample :
    ((setParentRun sampleWorldProfiles sampleProfileP1 "").2 = none) ∧
    ((setParentRun sampleWorldProfiles sampleProfileP1 "").1.parentName = "") ∧
    ((setParentRun sampleWorldProfiles sampleProfileP1 "").1.depth ≠ 0) :=
  ⟨rfl, rfl, by decide⟩

/-- C6 (amended): after a successful `setParent` with a nonempty name the
stored parent name is the new name and `depth` equals the found parent's
depth plus one; `setParent` with the empty name clears the parent name but
returns the item with its `depth` unchanged (the setter returns before
recomputing it). -/
theorem c6_depth_after_set_parent (w : World) (it : Item) :
    (setParentRun w it "" = ({ it with parentName := "" }, none)) ∧
    (∀ p r, p ≠ "" → setParentRun w it p = (r, none) →
      ∃ found, getByName (getItems w it.typeName) p = some found ∧
        r = { it with parentName := p, depth := found.depth + 1 } ∧
        r.parentName = p ∧ r.depth = found.depth + 1) := by
  refine ⟨by simp [setParentRun], fun p r hp hr => ?_⟩
  unfold setParentRun at hr
  rw [if_neg hp] at hr
  by_cases hself : p = it.name
  · simp [hself] at hr
  · rw [if_neg hself] at hr
    rcases hfind : getByName (getItems w it.typeName) p with _ | found <;> rw [hfind] at hr
    · simp at hr
    · simp only [Prod.mk.injEq] at hr
      refine ⟨found, rfl, hr.1.symm, ?_, ?_⟩ <;> rw [← hr.1]

/-- Witness for `c6_depth_after_set_parent`: reparenting `p2` under `p0`. -/
theorem c6_depth_after_set_parent_witness :
    ∃ found,
      getByName (getItems sampleWorldProfiles sampleProfileP2.typeName) "p0" = some found ∧
      ({ sampleProfileP2 with parentName := "p0", depth := 1 } : Item) =
        { sampleProfileP2 with parentName := "p0", depth := found.depth + 1 } ∧
      ({ sampleProfileP2 with parentName := "p0", depth := 1 } : Item).parentName = "p0" ∧
      ({ sampleProfileP2 with parentName := "p0", depth := 1 } : Item).depth = found.depth + 1 :=
  (c6_depth_after_set_parent sampleWorldProfiles sampleProfileP2).2 "p0"
    { sampleProfileP2 with parentName := "p0", depth := 1 } (by decide) (by decide)

/-- Counterexample to C7: `setParent(x, name)` with `name` equal to the
item's own name, or with a name not present in the family collection, does
not always fail.  An item whose name is still empty has `setParent(x, "")`
succeed (the empty string equals its own name and is also absent from the
collection), because the clearing branch runs before either check. -/
theorem c7_counterexample :
    (unnamedProfile.name = "") ∧
    ((setParentRun sampleWorldProfiles unnamedProfile "").2 = none) ∧
    (getByName (getItems sampleWorldProfiles unnamedProfile.typeName) "" = none) :=
  ⟨rfl, rfl, by decide⟩

/-- C7 (amended): for every nonempty name, `setParent` with the item's own
name fails with `CX`, and `setParent` with a name absent from the family
collection fails with `CX`; in both cases the returned item is the input
item unchanged (no partial mutation).  (`setParent` with the empty name
instead always succeeds and clears the parent.) -/
theorem c7_invalid_parent (w : World) (it : Item) (name : String)
    (hne : name ≠ "") :
    (name = it.name →
      setParentRun w it name = (it, some (.cx "self parentage is weird"))) ∧
    (name ≠ it.name → getByName (getItems w it.typeName) name = none →
      setParentRun w it name =
        (it, some (.cx ("profile " ++ name ++ " not found, inheritance not possible")))) := by
  constructor
  · intro hself
    subst hself
    simp [setParentRun, hne]
  · intro hself hfind
    simp [setParentRun, hne, hself, hfind]

/-- Witness for `c7_invalid_parent`: the self-parent and the unknown-parent
failures at concrete inputs. -/
theorem c7_invalid_parent_witness :
    (setParentRun sampleWorldProfiles sampleProfileP1 "p1" =
      (sampleProfileP1, some (.cx "self parentage is weird"))) ∧
    (setParentRun sampleWorldProfiles sampleProfileP1 "zz" =
      (sampleProfileP1, some (.cx ("profile " ++ "zz" ++ " not found, inheritance not possible")))) :=
  ⟨(c7_invalid_parent sampleWorldProfiles sampleProfileP1 "p1" (by decide)).1 (by decide),
   (c7_invalid_parent sampleWorldProfiles sampleProfileP1 "zz" (by decide)).2
     (by decide) (by decide)⟩

theorem findByName_sentinel (w : World) (fam : String)
    (hs : ∀ j ∈ w.items, j.name ≠ VALUE_INHERITED) :
    findByName w fam VALUE_INHERITED = none := by
  unfold findByName getByName
  rw [List.find?_eq_none]
  intro x hx
  have hx1 : x ∈ w.items := (List.mem_filter.mp hx).1
  simpa using hs x hx1

theorem findSomeExt {a b : Type} (l : List a) (f g : a → Option b)
    (h : ∀ x ∈ l, f x = g x) : l.findSome? f = l.findSome? g := by
  induction l with
  | nil => rfl
  | cons hd tl ih =>
    rw [List.findSome?_cons, List.findSome?_cons, h hd (by simp)]
    cases g hd with
    | none => exact ih (fun x hx => h x (by simp [hx]))
    | some v => rfl

theorem prevLevelHit_spec (w : World) (top : Item) (entry : String × String)
    (hs : ∀ j ∈ w.items, j.name ≠ VALUE_INHERITED) :
    prevLevelHit w top entry =
      (match top.props.lookup entry.2 with
       | some (.str refName) =>
         if refName ≠ "" ∧ refName ≠ VALUE_INHERITED then findByName w entry.1 refName
         else none
       | _ => none) := by
  unfold prevLevelHit
  rcases hl : top.props.lookup entry.2 with _ | pv
  · rfl
  · cases pv with
    | str refName =>
      by_cases hre : refName = ""
      · simp [hre]
      · by_cases hri : refName = VALUE_INHERITED
        · subst hri
          simp [hre, findByName_sentinel w entry.1 hs]
        · simp [hre, hri]
    | int v => rfl
    | bool v => rfl
    | strList v => rfl
    | dict v => rfl
    | noneV => rfl

/-- C8: provided no item is named by the `INHERITED` sentinel (a name lookup
of the sentinel then finds nothing, which is the only way `get_conceptual_parent`
can observe it), `get_conceptual_parent` coincides with the conceptual-parent
function written from the spec sentence: walk the same-type chain to the
topmost ancestor, consult the logical-inheritance table for that ancestor's
family, and return the cross-type item looked up through the first reference
attribute whose value is non-empty and not the sentinel, or nothing. -/
theorem c8_conceptual_parent (w : World) (fuel : Nat) (it : Item)
    (hs : ∀ j ∈ w.items, j.name ≠ VALUE_INHERITED) :
    getConceptualParent w fuel it = conceptualParentSpec w fuel it := by
  unfold getConceptualParent conceptualParentSpec
  cases hta : topAncestor w fuel it with
  | none => rfl
  | some curr =>
    dsimp only
    cases hli : List.lookup curr.typeName LOGICAL_INHERITANCE with
    | none => rfl
    | some levels =>
      dsimp only
      exact findSomeExt _ _ _ (fun e _ => prevLevelHit_spec w curr e hs)

/-- Witness for `c8_conceptual_parent`: the subprofile of the sample world,
whose conceptual parent is the distro referenced by its topmost ancestor. -/
theorem c8_conceptual_parent_witness :
    getConceptualParent sampleWorld 3 sampleProfile2 =
      conceptualParentSpec sampleWorld 3 sampleProfile2 :=
  c8_conceptual_parent sampleWorld 3 sampleProfile2 (by decide)

/-- C1: scalar resolution returns the raw stored value verbatim when it is
not the `INHERITED` sentinel; when it is the sentinel, it returns the first
value found in the order same-type parent's property, conceptual parent's
property, settings field of the (possibly renamed) attribute name, settings
field with a `default_` prefix; and when none of these sources yields a
value it fails with the `AttributeError` reporting the item's type and name,
never silently defaulting.  (A found Python `None` is not a value: the raise
also rejects it, hence the `≠ noneV` hypotheses.) -/
theorem c1_resolve_scalar (w : World) (fuel : Nat) (it : Item)
    (propertyName : String) (raw : PropVal) (sName : String)
    (hraw : commonResolve it propertyName = (some raw, sName)) :
    (raw ≠ INHERITED → resolveScalar w (fuel + 1) it propertyName = .ok raw) ∧
    (raw = INHERITED →
      (∀ v, parentSourceVal w fuel it propertyName = some v → v ≠ .noneV →
        resolveScalar w (fuel + 1) it propertyName = .ok v) ∧
      (parentSourceVal w fuel it propertyName = none →
        ∀ v, conceptualSourceVal w fuel it propertyName = some v → v ≠ .noneV →
          resolveScalar w (fuel + 1) it propertyName = .ok v) ∧
      (parentSourceVal w fuel it propertyName = none →
        conceptualSourceVal w fuel it propertyName = none →
        ∀ v, w.settings.fields.lookup sName = some v → v ≠ .noneV →
          resolveScalar w (fuel + 1) it propertyName = .ok v) ∧
      (parentSourceVal w fuel it propertyName = none →
        conceptualSourceVal w fuel it propertyName = none →
        w.settings.fields.lookup sName = none →
        ∀ v, w.settings.fields.lookup ("default_" ++ sName) = some v → v ≠ .noneV →
          resolveScalar w (fuel + 1) it propertyName = .ok v) ∧
      (parentSourceVal w fuel it propertyName = none →
        conceptualSourceVal w fuel it propertyName = none →
        w.settings.fields.lookup sName = none →
        w.settings.fields.lookup ("default_" ++ sName) = none →
        resolveScalar w (fuel + 1) it propertyName =
          .error (.unresolvable it.typeName it.name propertyName))) := by
  have hdef := resolveScalar.eq_2 w it propertyName fuel
  rw [hraw] at hdef
  dsimp only at hdef
  have hsrc : resolveSources w (fun j q => (resolveScalar w fuel j q).toOption) it
      (getConceptualParent w fuel it) propertyName sName =
      (match parentSourceVal w fuel it propertyName with
       | some v => some v
       | none =>
         match conceptualSourceVal w fuel it propertyName with
         | some v => some v
         | none =>
           match w.settings.fields.lookup sName with
           | some v => some v
           | none => w.settings.fields.lookup ("default_" ++ sName)) := rfl
  rw [hsrc] at hdef
  constructor
  · intro hne
    rw [hdef, if_neg hne]
  · intro hinh
    rw [hinh, if_pos rfl] at hdef
    refine ⟨?_, ?_, ?_, ?_, ?_⟩
    · intro v hv hvne
      rw [hv] at hdef
      rw [hdef]
      simp [hvne]
    · intro hp v hv hvne
      rw [hp, hv] at hdef
      rw [hdef]
      simp [hvne]
    · intro hp hc v hv hvne
      rw [hp, hc, hv] at hdef
      rw [hdef]
      simp [hvne]
    · intro hp hc hs1 v hv hvne
      rw [hp, hc, hs1, hv] at hdef
      rw [hdef]
      simp [hvne]
    · intro hp hc hs1 hs2
      rw [hp, hc, hs1, hs2] at hdef
      rw [hdef]

/-- Witness for `c1_resolve_scalar`: in the sample world, `owners` on the
subprofile is stored concretely and returned verbatim; `status` on the
subprofile is inherited from its same-type parent; `owners` on the top
profile falls through to the settings field `default_ownership`. -/
theorem c1_resolve_scalar_witness :
    resolveScalar sampleWorld (4 + 1) sampleProfile2 "owners" =
      .ok (.strList ["admin"]) ∧
    resolveScalar sampleWorld (4 + 1) sampleProfile2 "status" =
      .ok (.str "testing") ∧
    resolveScalar sampleWorld (4 + 1) sampleProfile1 "owners" =
      .ok (.strList ["admin"]) :=
  ⟨(c1_resolve_scalar sampleWorld 4 sampleProfile2 "owners" (.strList ["admin"])
      "default_ownership" (by decide)).1 (by decide),
   ((c1_resolve_scalar sampleWorld 4 sampleProfile2 "status" INHERITED
      "status" (by decide)).2 rfl).1 (.str "testing") (by decide) (by decide),
   (((c1_resolve_scalar sampleWorld 4 sampleProfile1 "owners" INHERITED
      "default_ownership" (by decide)).2 rfl).2.2.1 (by decide) (by decide)
      (.strList ["admin"]) (by decide) (by decide))⟩

theorem lookup_append_or {a b : Type} [BEq a] (l1 l2 : List (a × b)) (k : a) :
    ((l1 ++ l2).lookup k) = (l1.lookup k).or (l2.lookup k) := by
  induction l1 with
  | nil => simp [List.lookup]
  | cons hd tl ih =>
    obtain ⟨x, y⟩ := hd
    cases hk : k == x <;> simp [List.lookup, hk, ih]

theorem lookup_map_override (base upd : List (String × SVal)) (k : String) :
    ((base.map (fun kv =>
        match upd.lookup kv.1 with
        | some v => (kv.1, v)
        | none => kv)).lookup k) =
      (match base.lookup k with
       | some bv => some ((upd.lookup k).getD bv)
       | none => none) := by
  induction base with
  | nil => rfl
  | cons hd tl ih =>
    obtain ⟨x, y⟩ := hd
    by_cases hk : k = x
    · subst hk
      cases hu : upd.lookup k <;> simp [List.lookup, hu]
    · have hb : (k == x) = false := by simpa using hk
      cases hu : upd.lookup x <;> simp [List.lookup, hu, hb, ih]

theorem lookup_filter_base (base upd : List (String × SVal)) (k : String) :
    ((upd.filter (fun kv => (base.lookup kv.1).isNone)).lookup k) =
      (match base.lookup k with
       | some _ => none
       | none => upd.lookup k) := by
  induction upd with
  | nil => cases base.lookup k <;> rfl
  | cons hd tl ih =>
    obtain ⟨x, y⟩ := hd
    by_cases hk : k = x
    · subst hk
      cases hb : base.lookup k <;> simp [List.filter, List.lookup, hb, ih]
    · have hb2 : (k == x) = false := by simpa using hk
      cases hb : base.lookup x <;> simp [List.filter, List.lookup, hb, hb2, ih]

theorem dictUpdate_lookup (base upd : List (String × SVal)) (k : String) :
    ((dictUpdate base upd).lookup k) = (upd.lookup k).or (base.lookup k) := by
  unfold dictUpdate
  rw [lookup_append_or, lookup_map_override, lookup_filter_base]
  cases hb : base.lookup k <;> cases hu : upd.lookup k <;> simp

theorem dictAnnihilate_clean (d : List (String × SVal)) :
    ∀ kv ∈ dictAnnihilate d, kv.2 ≠ ANNIHILATOR := by
  intro kv hkv
  have h := List.of_mem_filter hkv
  simpa using h

theorem resolveDict_no_annihilator (w : World) (f : Nat) (it : Item)
    (p : String) (m : List (String × SVal)) (h : resolveDict w f it p = .ok m) :
    ∀ kv ∈ m, kv.2 ≠ ANNIHILATOR := by
  cases f with
  | zero => simp [resolveDict] at h
  | succ fuel =>
    rw [resolveDict.eq_2] at h
    dsimp only at h
    split at h
    · simp at h
    · split at h
      · simp at h
      · split at h
        · injection h with h2
          subst h2
          exact dictAnnihilate_clean _
        · split at h
          · injection h with h2
            subst h2
            exact dictAnnihilate_clean _
          · simp at h

/-- C2: dict resolution starts from the conceptual parent's same-named
mapping (or, absent a conceptual parent with that property, the settings'
mapping, or empty), overlays the item's own raw mapping — child keys win,
and only when the raw value is not the `INHERITED` sentinel — and finally
deletes every key whose value is the annihilator marker; the returned
mapping never contains an entry whose value is the annihilator marker. -/
theorem c2_resolve_dict (w : World) (fuel : Nat) (it : Item)
    (propertyName : String) (raw : PropVal)
    (hraw : it.props.lookup propertyName = some raw) :
    (raw = INHERITED →
      (∀ d, conceptualDictVal w fuel it propertyName = some d →
        resolveDict w (fuel + 1) it propertyName = .ok (dictAnnihilate d)) ∧
      (conceptualDictVal w fuel it propertyName = none →
        (∀ ds, w.settings.fields.lookup propertyName = some (.dict ds) →
          resolveDict w (fuel + 1) it propertyName = .ok (dictAnnihilate ds)) ∧
        (w.settings.fields.lookup propertyName = none →
          resolveDict w (fuel + 1) it propertyName = .ok []))) ∧
    (∀ rd, raw = .dict rd →
      (∀ d, conceptualDictVal w fuel it propertyName = some d →
        resolveDict w (fuel + 1) it propertyName =
          .ok (dictAnnihilate (dictUpdate d rd))) ∧
      (conceptualDictVal w fuel it propertyName = none →
        (∀ ds, w.settings.fields.lookup propertyName = some (.dict ds) →
          resolveDict w (fuel + 1) it propertyName =
            .ok (dictAnnihilate (dictUpdate ds rd))) ∧
        (w.settings.fields.lookup propertyName = none →
          resolveDict w (fuel + 1) it propertyName =
            .ok (dictAnnihilate (dictUpdate [] rd))))) ∧
    (∀ base upd k, ((dictUpdate base upd).lookup k) =
      (upd.lookup k).or (base.lookup k)) ∧
    (∀ f m, resolveDict w f it propertyName = .ok m →
      ∀ kv ∈ m, kv.2 ≠ ANNIHILATOR) := by
  have hdef := resolveDict.eq_2 w it propertyName fuel
  rw [hraw] at hdef
  dsimp only at hdef
  refine ⟨fun hinh => ⟨?_, fun hc => ⟨?_, ?_⟩⟩,
          fun rd hrd => ⟨?_, fun hc => ⟨?_, ?_⟩⟩,
          dictUpdate_lookup,
          fun f m h => resolveDict_no_annihilator w f it propertyName m h⟩
  · intro d hc
    unfold conceptualDictVal at hc
    rw [hc, hinh] at hdef
    simpa using hdef
  · intro ds hs
    unfold conceptualDictVal at hc
    rw [hc, hs, hinh] at hdef
    simpa using hdef
  · intro hs
    unfold conceptualDictVal at hc
    rw [hc, hs, hinh] at hdef
    simpa using hdef
  · intro d hc
    unfold conceptualDictVal at hc
    rw [hc, hrd] at hdef
    simpa using hdef
  · intro ds hs
    unfold conceptualDictVal at hc
    rw [hc, hs, hrd] at hdef
    simpa using hdef
  · intro hs
    unfold conceptualDictVal at hc
    rw [hc, hs, hrd] at hdef
    simpa using hdef

/-- Witness for `c2_resolve_dict`: in the sample world the top profile
inherits the distro's annihilated options, and the subprofile overlays its
own `b` key on top of the inherited `a` key. -/
theorem c2_resolve_dict_witness :
    resolveDict sampleWorld (4 + 1) sampleProfile1 "kernel_options" =
      .ok (dictAnnihilate [("a", .str "1")]) ∧
    resolveDict sampleWorld (4 + 1) sampleProfile2 "kernel_options" =
      .ok (dictAnnihilate (dictUpdate [("a", .str "1")] [("b", .str "2")])) :=
  ⟨((c2_resolve_dict sampleWorld 4 sampleProfile1 "kernel_options" INHERITED
      (by decide)).1 rfl).1 [("a", .str "1")] (by decide),
   ((c2_resolve_dict sampleWorld 4 sampleProfile2 "kernel_options"
      (.dict [("b", .str "2")]) (by decide)).2.1 [("b", .str "2")] rfl).1
      [("a", .str "1")] (by decide)⟩

theorem parentItem_mem (w : World) (it p : Item) (h : parentItem w it = some p) :
    p ∈ w.items ∧ p.typeName = it.typeName ∧ p.name = it.parentName ∧
      it.parentName ≠ "" := by
  unfold parentItem at h
  by_cases hp : it.parentName = ""
  · simp [hp] at h
  · rw [if_neg hp] at h
    unfold getByName at h
    have hmem := List.mem_of_find?_eq_some h
    have hpred := List.find?_some h
    have h1 := List.mem_filter.mp hmem
    refine ⟨h1.1, by simpa using h1.2, by simpa using hpred, hp⟩

theorem childrenOf_mem (w : World) (x c : Item) :
    c ∈ childrenOf w x ↔
      c ∈ w.items ∧ c.typeName = x.typeName ∧ c.parentName = x.name := by
  unfold childrenOf getItems
  constructor
  · intro h
    have h1 := List.mem_filter.mp h
    have h2 := List.mem_filter.mp h1.1
    exact ⟨h2.1, by simpa using h2.2, by simpa using h1.2⟩
  · intro ⟨h1, h2, h3⟩
    exact List.mem_filter.mpr ⟨List.mem_filter.mpr ⟨h1, by simpa using h2⟩, by simpa using h3⟩

theorem childrenOf_parentItem (w : World) (hwf : WF w) (x c : Item)
    (hx : x ∈ w.items) (hc : c ∈ childrenOf w x) : parentItem w c = some x := by
  obtain ⟨hci, hct, hcp⟩ := (childrenOf_mem w x c).mp hc
  have hxn : x.name ≠ "" := hwf.namesNonempty x hx
  unfold parentItem
  rw [if_neg (by rw [hcp]; exact hxn)]
  unfold getByName
  rcases hfind : (getItems w c.typeName).find? (fun j => j.name == c.parentName) with _ | z
  · exfalso
    rw [List.find?_eq_none] at hfind
    have hxf : x ∈ getItems w c.typeName :=
      List.mem_filter.mpr ⟨hx, by simp [hct]⟩
    exact hfind x hxf (by simp [hcp])
  · have hmem := List.mem_filter.mp (List.mem_of_find?_eq_some hfind)
    have hpred := List.find?_some hfind
    have ht2 : z.typeName = c.typeName := by simpa using hmem.2
    have hn2 : z.name = c.parentName := by simpa using hpred
    have hz : z = x := hwf.namesUnique z hmem.1 x hx (ht2.trans hct) (hn2.trans hcp)
    rw [← hz]
    exact hfind

theorem upChain_one (w : World) (y : Item) : upChain w 1 y = parentItem w y := by
  unfold upChain
  cases parentItem w y <;> rfl

theorem upChain_succ_right (w : World) (k : Nat) (y : Item) :
    upChain w (k + 1) y = (upChain w k y).bind (parentItem w) := by
  induction k generalizing y with
  | zero =>
    rw [upChain_one]
    rfl
  | succ n ih =>
    have hL : upChain w (n + 1 + 1) y = (parentItem w y).bind (upChain w (n + 1)) := rfl
    have hR : upChain w (n + 1) y = (parentItem w y).bind (upChain w n) := rfl
    rw [hL, hR]
    cases hp : parentItem w y with
    | none => simp
    | some p => simp [ih p]

theorem upChain_mem (w : World) (k : Nat) (y z : Item)
    (h : upChain w (k + 1) y = some z) : z ∈ w.items := by
  rw [upChain_succ_right] at h
  rcases hm : upChain w k y with _ | m <;> rw [hm] at h
  · simp at h
  · exact (parentItem_mem w m z (by simpa using h)).1

theorem upChain_depth (w : World) (hwf : WF w) (k : Nat) :
    ∀ y z : Item, y ∈ w.items → upChain w k y = some z →
      y.depth = z.depth + (k : Int) := by
  induction k with
  | zero =>
    intro y z _ h
    obtain rfl : y = z := by simpa [upChain] using h
    simp
  | succ n ih =>
    intro y z hy h
    have h2 : (parentItem w y).bind (upChain w n) = some z := h
    rcases hp : parentItem w y with _ | p <;> rw [hp] at h2
    · simp at h2
    · have hpm := parentItem_mem w y p hp
      have hd := hwf.depthParent y hy p hp
      have := ih p z hpm.1 (by simpa using h2)
      omega

theorem treeWalk_mem (w : World) (hwf : WF w) (fuel : Nat) :
    ∀ x y : Item, x ∈ w.items →
      (y ∈ treeWalk w fuel x ↔
        ∃ k, 1 ≤ k ∧ k ≤ fuel ∧ upChain w k y = some x ∧ y ∈ w.items) := by
  induction fuel with
  | zero =>
    intro x y hx
    constructor
    · intro h
      simp [treeWalk] at h
    · rintro ⟨k, hk1, hkn, _, _⟩
      omega
  | succ n ih =>
    intro x y hx
    rw [treeWalk, List.mem_flatMap]
    constructor
    · rintro ⟨c, hc, hyc⟩
      have hcp := childrenOf_parentItem w hwf x c hx hc
      have hci := ((childrenOf_mem w x c).mp hc).1
      rcases List.mem_cons.mp hyc with rfl | hyt
      · exact ⟨1, le_refl 1, by omega, by rw [upChain_one]; exact hcp, hci⟩
      · obtain ⟨k, hk1, hkn, hchain, hyi⟩ := (ih c y hci).mp hyt
        refine ⟨k + 1, by omega, by omega, ?_, hyi⟩
        rw [upChain_succ_right, hchain]
        simpa using hcp
    · rintro ⟨k, hk1, hkn, hchain, hyi⟩
      match k, hk1 with
      | 1, _ =>
        rw [upChain_one] at hchain
        have hpm := parentItem_mem w y x hchain
        have hyc : y ∈ childrenOf w x :=
          (childrenOf_mem w x y).mpr ⟨hyi, hpm.2.1.symm, hpm.2.2.1.symm⟩
        exact ⟨y, hyc, by simp⟩
      | (m + 2), _ =>
        rw [upChain_succ_right] at hchain
        rcases hmid : upChain w (m + 1) y with _ | mid <;> rw [hmid] at hchain
        · simp at hchain
        · have hmidm : mid ∈ w.items := upChain_mem w m y mid hmid
          have hmp : parentItem w mid = some x := by simpa using hchain
          have hpm := parentItem_mem w mid x hmp
          have hmidc : mid ∈ childrenOf w x :=
            (childrenOf_mem w x mid).mpr ⟨hmidm, hpm.2.1.symm, hpm.2.2.1.symm⟩
          refine ⟨mid, hmidc, List.mem_cons.mpr (Or.inr ?_)⟩
          exact (ih mid y hmidm).mpr ⟨m + 1, by omega, by omega, hmid, hyi⟩

theorem treeWalk_not_self (w : World) (hwf : WF w) (fuel : Nat) (x : Item)
    (hx : x ∈ w.items) : x ∉ treeWalk w fuel x := by
  intro hmem
  obtain ⟨k, hk1, _, hchain, _⟩ := (treeWalk_mem w hwf fuel x x hx).mp hmem
  have := upChain_depth w hwf k x x hx hchain
  omega

theorem treeWalk_nodup (w : World) (hwf : WF w) :
    ∀ fuel (x : Item), x ∈ w.items → (treeWalk w fuel x).Nodup := by
  intro fuel
  induction fuel with
  | zero =>
    intro x _
    simp [treeWalk]
  | succ n ih =>
    intro x hx
    rw [treeWalk, List.nodup_flatMap]
    constructor
    · intro c hc
      have hci := ((childrenOf_mem w x c).mp hc).1
      exact List.nodup_cons.mpr ⟨treeWalk_not_self w hwf n c hci, ih c hci⟩
    · have hnd : (childrenOf w x).Nodup :=
        List.Nodup.filter _ (List.Nodup.filter _ hwf.itemsNodup)
      refine List.Pairwise.imp_of_mem ?_ hnd
      intro c1 c2 hc1 hc2 hne z hz1 hz2
      have hc1i := ((childrenOf_mem w x c1).mp hc1).1
      have hc2i := ((childrenOf_mem w x c2).mp hc2).1
      have hp1 := childrenOf_parentItem w hwf x c1 hx hc1
      have hp2 := childrenOf_parentItem w hwf x c2 hx hc2
      have step1 : ∃ k1, upChain w k1 z = some c1 ∧ z ∈ w.items := by
        rcases List.mem_cons.mp hz1 with rfl | hz1t
        · exact ⟨0, rfl, hc1i⟩
        · obtain ⟨k, _, _, hch, hzi⟩ := (treeWalk_mem w hwf n c1 z hc1i).mp hz1t
          exact ⟨k, hch, hzi⟩
      have step2 : ∃ k2, upChain w k2 z = some c2 ∧ z ∈ w.items := by
        rcases List.mem_cons.mp hz2 with rfl | hz2t
        · exact ⟨0, rfl, hc2i⟩
        · obtain ⟨k, _, _, hch, hzi⟩ := (treeWalk_mem w hwf n c2 z hc2i).mp hz2t
          exact ⟨k, hch, hzi⟩
      obtain ⟨k1, hch1, hzi⟩ := step1
      obtain ⟨k2, hch2, _⟩ := step2
      have hx1 : upChain w (k1 + 1) z = some x := by
        rw [upChain_succ_right, hch1]
        simpa using hp1
      have hx2 : upChain w (k2 + 1) z = some x := by
        rw [upChain_succ_right, hch2]
        simpa using hp2
      have hd1 := upChain_depth w hwf (k1 + 1) z x hzi hx1
      have hd2 := upChain_depth w hwf (k2 + 1) z x hzi hx2
      have hk : k1 = k2 := by omega
      subst hk
      rw [hch1] at hch2
      exact hne (by simpa using hch2)

theorem wfCheck_wf (w : World) (h : wfCheck w) : WF w :=
  ⟨h.1, h.2.1, h.2.2.1,
   fun it hit p hp => h.2.2.2 it hit p (parentItem_mem w it p hp).1 hp⟩

/-- C5: on a well-formed world with enough fuel for the depth range,
`tree_walk(x)` is the recursive depth-first pre-order traversal of
`children` (first conjunct: its defining recursion), contains exactly the
strict transitive children of `x` (membership iff `StrictDesc`), each
exactly once (`Nodup`), and never contains `x` itself. -/
theorem c5_tree_walk (w : World) (x : Item) (fuel : Nat) (hwf : WF w)
    (hx : x ∈ w.items)
    (hfuel : ∀ y ∈ w.items, y.depth ≤ x.depth + (fuel : Int)) :
    (∀ z : Item, ∀ f : Nat, treeWalk w (f + 1) z =
      (childrenOf w z).flatMap (fun child => child :: treeWalk w f child)) ∧
    (treeWalk w fuel x).Nodup ∧
    (∀ y, y ∈ treeWalk w fuel x ↔ StrictDesc w x y) ∧
    x ∉ treeWalk w fuel x := by
  refine ⟨fun z f => rfl, treeWalk_nodup w hwf fuel x hx, fun y => ?_,
    treeWalk_not_self w hwf fuel x hx⟩
  rw [treeWalk_mem w hwf fuel x y hx]
  unfold StrictDesc
  constructor
  · rintro ⟨k, hk1, _, hch, hyi⟩
    exact ⟨hyi, k, hk1, hch⟩
  · rintro ⟨hyi, k, hk1, hch⟩
    have hdep := upChain_depth w hwf k y x hyi hch
    have hb := hfuel y hyi
    exact ⟨k, hk1, by omega, hch, hyi⟩

/-- Witness for `c5_tree_walk`: the sample world's top profile. -/
theorem c5_tree_walk_witness :
    (∀ z : Item, ∀ f : Nat, treeWalk sampleWorld (f + 1) z =
      (childrenOf sampleWorld z).flatMap
        (fun child => child :: treeWalk sampleWorld f child)) ∧
    (treeWalk sampleWorld 3 sampleProfile1).Nodup ∧
    (∀ y, y ∈ treeWalk sampleWorld 3 sampleProfile1 ↔
      StrictDesc sampleWorld sampleProfile1 y) ∧
    sampleProfile1 ∉ treeWalk sampleWorld 3 sampleProfile1 :=
  c5_tree_walk sampleWorld sampleProfile1 3
    (wfCheck_wf sampleWorld (by decide)) (by decide) (by decide)

theorem mem_insertU (acc : List Item) (a y : Item) :
    y ∈ insertU acc a ↔ y ∈ acc ∨ y = a := by
  unfold insertU
  by_cases h : a ∈ acc
  · rw [if_pos h]
    constructor
    · exact Or.inl
    · rintro (hy | rfl)
      exacts [hy, h]
  · rw [if_neg h]
    simp

theorem insertU_nodup (acc : List Item) (a : Item) (h : acc.Nodup) :
    (insertU acc a).Nodup := by
  unfold insertU
  by_cases hm : a ∈ acc
  · rw [if_pos hm]
    exact h
  · rw [if_neg hm]
    simp [List.nodup_append, h, hm]

theorem mem_unionU (xs : List Item) :
    ∀ (acc : List Item) (y : Item), y ∈ unionU acc xs ↔ y ∈ acc ∨ y ∈ xs := by
  induction xs with
  | nil => simp [unionU]
  | cons x tl ih =>
    intro acc y
    have h1 : unionU acc (x :: tl) = unionU (insertU acc x) tl := rfl
    rw [h1, ih, mem_insertU]
    simp [or_assoc, List.mem_cons]

theorem unionU_nodup (xs : List Item) :
    ∀ acc : List Item, acc.Nodup → (unionU acc xs).Nodup := by
  induction xs with
  | nil => exact fun acc h => h
  | cons x tl ih =>
    intro acc h
    exact ih (insertU acc x) (insertU_nodup acc x h)

theorem foldlM_option_mem {b : Type} (P : b → Item → Prop)
    (f : List Item → b → Option (List Item))
    (hf : ∀ acc a acc', f acc a = some acc' →
      ∀ y, y ∈ acc' ↔ y ∈ acc ∨ P a y) :
    ∀ (l : List b) (init out : List Item), List.foldlM f init l = some out →
      ∀ y, (y ∈ out ↔ y ∈ init ∨ ∃ a ∈ l, P a y) := by
  intro l
  induction l with
  | nil =>
    intro init out h y
    simp [List.foldlM_nil] at h
    subst h
    simp
  | cons a tl ih =>
    intro init out h y
    rw [List.foldlM_cons] at h
    rcases ha : f init a with _ | acc1 <;> rw [ha] at h
    · simp at h
    · simp only [Option.bind_eq_bind, Option.some_bind] at h
      rw [ih acc1 out h y, hf init a acc1 ha y, List.exists_mem_cons_iff]
      tauto

theorem foldlM_option_nodup {b : Type} (f : List Item → b → Option (List Item))
    (hf : ∀ acc a acc', f acc a = some acc' → acc.Nodup → acc'.Nodup) :
    ∀ (l : List b) (init out : List Item), List.foldlM f init l = some out →
      init.Nodup → out.Nodup := by
  intro l
  induction l with
  | nil =>
    intro init out h hn
    simp [List.foldlM_nil] at h
    subst h
    exact hn
  | cons a tl ih =>
    intro init out h hn
    rw [List.foldlM_cons] at h
    rcases ha : f init a with _ | acc1 <;> rw [ha] at h
    · simp at h
    · simp only [Option.bind_eq_bind, Option.some_bind] at h
      exact ih acc1 out h (hf init a acc1 ha hn)

theorem depEntryStep_mem (w : World) (descFn : Item → Option (List Item))
    (childName : String) (acc : List Item) (entry : String × String)
    (acc' : List Item)
    (h : depEntryStep w descFn childName acc entry = some acc') :
    ∀ y, y ∈ acc' ↔ y ∈ acc ∨
      (y ∈ findItemsByCrit w entry.1 entry.2 childName ∨
       ∃ d ∈ findItemsByCrit w entry.1 entry.2 childName,
         ∃ l, descFn d = some l ∧ y ∈ l) := by
  unfold depEntryStep at h
  intro y
  have hstep : ∀ (a : List Item) (d : Item) (a' : List Item),
      ((descFn d).map (unionU a)) = some a' →
      ∀ z, z ∈ a' ↔ z ∈ a ∨ (∃ l, descFn d = some l ∧ z ∈ l) := by
    intro a d a' hm z
    rcases hd : descFn d with _ | l <;> rw [hd] at hm
    · exact Option.noConfusion hm
    · have hm2 : unionU a l = a' := Option.some.inj hm
      subst hm2
      rw [mem_unionU]
      simp [hd]
  have hmain := foldlM_option_mem (fun d z => ∃ l, descFn d = some l ∧ z ∈ l)
    (fun a d => (descFn d).map (unionU a)) hstep
    (findItemsByCrit w entry.1 entry.2 childName)
    (unionU acc (findItemsByCrit w entry.1 entry.2 childName)) acc' h y
  rw [hmain, mem_unionU]
  tauto

theorem depEntryStep_nodup (w : World) (descFn : Item → Option (List Item))
    (childName : String) (acc : List Item) (entry : String × String)
    (acc' : List Item)
    (h : depEntryStep w descFn childName acc entry = some acc')
    (hn : acc.Nodup) : acc'.Nodup := by
  unfold depEntryStep at h
  have hstep : ∀ (a : List Item) (d : Item) (a' : List Item),
      ((descFn d).map (unionU a)) = some a' → a.Nodup → a'.Nodup := by
    intro a d a' hm hna
    rcases hd : descFn d with _ | l <;> rw [hd] at hm
    · exact Option.noConfusion hm
    · have hm2 : unionU a l = a' := Option.some.inj hm
      subst hm2
      exact unionU_nodup l a hna
  exact foldlM_option_nodup (fun a d => (descFn d).map (unionU a)) hstep
    (findItemsByCrit w entry.1 entry.2 childName)
    (unionU acc (findItemsByCrit w entry.1 entry.2 childName)) acc' h
    (unionU_nodup _ acc hn)

theorem descendants_mem (w : World) (fuel : Nat) (x : Item) (out : List Item)
    (h : descendants w (fuel + 1) x = some out) :
    ∀ y, y ∈ out ↔ y ∈ treeWalk w (fuel + 1) x ∨
      ∃ m ∈ treeWalk w (fuel + 1) x ++ [x],
        depContribution w (descendants w fuel) m y := by
  rw [descendants.eq_2] at h
  intro y
  have hf : ∀ (acc : List Item) (child : Item) (acc' : List Item),
      ((TYPE_DEPENDENCIES.lookup child.typeName).getD []).foldlM
        (depEntryStep w (descendants w fuel) child.name) acc = some acc' →
      ∀ z, z ∈ acc' ↔ z ∈ acc ∨ depContribution w (descendants w fuel) child z := by
    intro acc child acc' hfold z
    have := foldlM_option_mem
      (fun entry zz => zz ∈ findItemsByCrit w entry.1 entry.2 child.name ∨
        ∃ d ∈ findItemsByCrit w entry.1 entry.2 child.name,
          ∃ l, descendants w fuel d = some l ∧ zz ∈ l)
      (depEntryStep w (descendants w fuel) child.name)
      (fun a e a' he zz => depEntryStep_mem w (descendants w fuel) child.name a e a' he zz)
      ((TYPE_DEPENDENCIES.lookup child.typeName).getD []) acc acc' hfold z
    rw [this]
    rfl
  have hmain := foldlM_option_mem (depContribution w (descendants w fuel))
    (fun acc child =>
      ((TYPE_DEPENDENCIES.lookup child.typeName).getD []).foldlM
        (depEntryStep w (descendants w fuel) child.name) acc)
    hf (treeWalk w (fuel + 1) x ++ [x]) (unionU [] (treeWalk w (fuel + 1) x)) out h y
  rw [hmain, mem_unionU]
  simp

theorem descendants_nodup (w : World) (fuel : Nat) (x : Item) (out : List Item)
    (h : descendants w (fuel + 1) x = some out) : out.Nodup := by
  rw [descendants.eq_2] at h
  have hf : ∀ (acc : List Item) (child : Item) (acc' : List Item),
      ((TYPE_DEPENDENCIES.lookup child.typeName).getD []).foldlM
        (depEntryStep w (descendants w fuel) child.name) acc = some acc' →
      acc.Nodup → acc'.Nodup := by
    intro acc child acc' hfold hn
    exact foldlM_option_nodup (depEntryStep w (descendants w fuel) child.name)
      (fun a e a' he => depEntryStep_nodup w (descendants w fuel) child.name a e a' he)
      ((TYPE_DEPENDENCIES.lookup child.typeName).getD []) acc acc' hfold hn
  exact foldlM_option_nodup _ hf (treeWalk w (fuel + 1) x ++ [x])
    (unionU [] (treeWalk w (fuel + 1) x)) out h
    (unionU_nodup _ [] (List.nodup_nil))

/-- C4: whenever the (fueled) `descendants` computation completes, the
result contains each item at most once (set semantics), and its membership
is exactly the union of `tree_walk(x)` with, for every member of
`tree_walk(x) ++ [x]`, every dependency contribution — a matching dependent
item of another family, or transitively a member of such a dependent item's
own descendants; on a well-formed world it never contains `x` itself unless
`x` arises as such a dependency contribution of its own dependents
(membership through `tree_walk` is impossible for `x`). -/
theorem c4_descendants (w : World) (fuel : Nat) (x : Item) (out : List Item)
    (h : descendants w (fuel + 1) x = some out) :
    out.Nodup ∧
    (∀ y, y ∈ out ↔ y ∈ treeWalk w (fuel + 1) x ∨
      ∃ m ∈ treeWalk w (fuel + 1) x ++ [x],
        depContribution w (descendants w fuel) m y) ∧
    (WF w → x ∈ w.items → x ∈ out →
      ∃ m ∈ treeWalk w (fuel + 1) x ++ [x],
        depContribution w (descendants w fuel) m x) := by
  refine ⟨descendants_nodup w fuel x out h, descendants_mem w fuel x out h,
    fun hwf hx hxout => ?_⟩
  rcases (descendants_mem w fuel x out h x).mp hxout with htw | hdep
  · exact absurd htw (treeWalk_not_self w hwf (fuel + 1) x hx)
  · exact hdep

/-- Witness for `c4_descendants`: the sample world's top profile, whose
descendants are the subprofile and the attached system. -/
theorem c4_descendants_witness :
    ([sampleProfile2, sampleSystem] : List Item).Nodup ∧
    (∀ y, y ∈ ([sampleProfile2, sampleSystem] : List Item) ↔
      y ∈ treeWalk sampleWorld (4 + 1) sampleProfile1 ∨
      ∃ m ∈ treeWalk sampleWorld (4 + 1) sampleProfile1 ++ [sampleProfile1],
        depContribution sampleWorld (descendants sampleWorld 4) m y) ∧
    (WF sampleWorld → sampleProfile1 ∈ sampleWorld.items →
      sampleProfile1 ∈ ([sampleProfile2, sampleSystem] : List Item) →
      ∃ m ∈ treeWalk sampleWorld (4 + 1) sampleProfile1 ++ [sampleProfile1],
        depContribution sampleWorld (descendants sampleWorld 4) m sampleProfile1) :=
  c4_descendants sampleWorld 4 sampleProfile1 [sampleProfile2, sampleSystem]
    (by decide)

theorem setAssoc_lookup_self (l : List ((String × String) × Bool))
    (k : String × String) (b : Bool) : (setAssoc l k b).lookup k = some b := by
  simp [setAssoc, List.lookup]

theorem lookup_filter_ne (l : List ((String × String) × Bool))
    (k k' : String × String) (h : k' ≠ k) :
    ((l.filter (fun kv => kv.1 != k)).lookup k') = l.lookup k' := by
  induction l with
  | nil => rfl
  | cons hd tl ih =>
    obtain ⟨a, c⟩ := hd
    by_cases hk : a = k
    · subst hk
      have h2 : (k' == a) = false := by simpa using h
      simp [List.filter, List.lookup, h2, ih]
    · have h2 : ((a, c).1 != k) = true := by simpa using hk
      simp only [List.filter_cons, h2, if_true]
      by_cases h3 : k' = a
      · subst h3
        simp [List.lookup]
      · have h4 : (k' == a) = false := by simpa using h3
        simp [List.lookup, h4, ih]

theorem setAssoc_lookup_other (l : List ((String × String) × Bool))
    (k : String × String) (b : Bool) (k' : String × String) (h : k' ≠ k) :
    (setAssoc l k b).lookup k' = l.lookup k' := by
  have hbk : (k' == k) = false := by simpa using h
  unfold setAssoc
  simp [List.lookup, hbk, lookup_filter_ne l k k' h]

theorem cacheValid_invalidate_self (w : World) (k : String × String) :
    cacheValid (invalidateCache w k) k = false := by
  unfold cacheValid invalidateCache
  simp [setAssoc_lookup_self]

theorem cacheValid_invalidate_other (w : World) (k k' : String × String)
    (h : k' ≠ k) : cacheValid (invalidateCache w k) k' = cacheValid w k' := by
  unfold cacheValid invalidateCache
  simp only [setAssoc_lookup_other w.caches k false k' h]

theorem invalidateCache_items (w : World) (k : String × String) :
    (invalidateCache w k).items = w.items ∧
    (invalidateCache w k).settings = w.settings := ⟨rfl, rfl⟩

theorem foldl_invalidate_frame (ds : List Item) :
    ∀ (w : World) (key : String × String),
      (∀ d ∈ ds, key ≠ (d.typeName, d.name)) →
      cacheValid (ds.foldl
        (fun acc d => invalidateCache acc (d.typeName, d.name)) w) key =
        cacheValid w key := by
  induction ds with
  | nil => intro w key _; rfl
  | cons d tl ih =>
    intro w key hk
    have h1 : cacheValid (invalidateCache w (d.typeName, d.name)) key =
        cacheValid w key :=
      cacheValid_invalidate_other w _ key (hk d (by simp))
    simp only [List.foldl_cons]
    rw [ih (invalidateCache w (d.typeName, d.name)) key
      (fun e he => hk e (by simp [he])), h1]

theorem foldl_invalidate_false (ds : List Item) :
    ∀ (w : World) (key : String × String),
      cacheValid w key = false →
      cacheValid (ds.foldl
        (fun acc d => invalidateCache acc (d.typeName, d.name)) w) key = false := by
  induction ds with
  | nil => intro w key h; exact h
  | cons d tl ih =>
    intro w key h
    simp only [List.foldl_cons]
    apply ih
    by_cases hk : key = (d.typeName, d.name)
    · subst hk
      exact cacheValid_invalidate_self w _
    · rw [cacheValid_invalidate_other w _ key hk]
      exact h

theorem foldl_invalidate_mem (ds : List Item) :
    ∀ (w : World) (d : Item), d ∈ ds →
      cacheValid (ds.foldl
        (fun acc e => invalidateCache acc (e.typeName, e.name)) w)
        (d.typeName, d.name) = false := by
  induction ds with
  | nil => intro w d h; simp at h
  | cons e tl ih =>
    intro w d h
    simp only [List.foldl_cons]
    rcases List.mem_cons.mp h with rfl | htl
    · exact foldl_invalidate_false tl _ _ (cacheValid_invalidate_self w _)
    · exact ih _ d htl

theorem foldl_invalidate_world (ds : List Item) :
    ∀ (w : World),
      (ds.foldl (fun acc e => invalidateCache acc (e.typeName, e.name)) w).items
        = w.items ∧
      (ds.foldl (fun acc e => invalidateCache acc (e.typeName, e.name)) w).settings
        = w.settings := by
  induction ds with
  | nil => intro w; exact ⟨rfl, rfl⟩
  | cons e tl ih =>
    intro w
    simp only [List.foldl_cons]
    exact ih (invalidateCache w (e.typeName, e.name))

/-- C3: when caching is administratively disabled, `_clean_dict_cache` is a
no-op (the world is returned untouched); when enabled, the item's own cache
entry is always invalidated regardless of the attribute, the resolved-dict
caches of exactly the members of `descendants(item)` are additionally
invalidated when the cascade condition holds (inheritable property, item in
memory, concrete family, registered in its collection), cache entries
outside `{item} ∪ descendants(item)` are never touched, and when the cascade
condition fails no entry other than the item's own changes; the item list
and settings are never modified. -/
theorem c3_clean_dict_cache (w : World) (fuel : Nat) (it : Item) (name : Option String) :
    (w.settings.cacheEnabled = false → cleanDictCache w fuel it name = w) ∧
    (w.settings.cacheEnabled = true →
      cacheValid (cleanDictCache w fuel it name) (it.typeName, it.name) = false) ∧
    (w.settings.cacheEnabled = true → cascadeCond w it name = true →
      ∀ ds, descendants w fuel it = some ds → ∀ d ∈ ds,
        cacheValid (cleanDictCache w fuel it name) (d.typeName, d.name) = false) ∧
    (∀ key, key ≠ (it.typeName, it.name) →
      (∀ d ∈ (descendants w fuel it).getD [], key ≠ (d.typeName, d.name)) →
      cacheValid (cleanDictCache w fuel it name) key = cacheValid w key) ∧
    (w.settings.cacheEnabled = true → cascadeCond w it name = false →
      ∀ key, key ≠ (it.typeName, it.name) →
        cacheValid (cleanDictCache w fuel it name) key = cacheValid w key) ∧
    ((cleanDictCache w fuel it name).items = w.items ∧
     (cleanDictCache w fuel it name).settings = w.settings) := by
  by_cases hen : w.settings.cacheEnabled = true
  · have hcdc : cleanDictCache w fuel it name =
        invalidateCache
          (if cascadeCond w it name then
            ((descendants w fuel it).getD []).foldl
              (fun acc depItem => invalidateCache acc (depItem.typeName, depItem.name)) w
          else w)
          (it.typeName, it.name) := by
      unfold cleanDictCache
      rw [hen]
      rfl
    refine ⟨fun hdis => absurd hen (by simp [hdis]), fun _ => ?_, fun _ hcas ds hds d hd => ?_,
      fun key hk1 hk2 => ?_, fun _ hcas key hk1 => ?_, ?_, ?_⟩
    · rw [hcdc]
      exact cacheValid_invalidate_self _ _
    · rw [hcdc, if_pos hcas]
      by_cases hsame : (d.typeName, d.name) = (it.typeName, it.name)
      · rw [hsame]
        exact cacheValid_invalidate_self _ _
      · rw [cacheValid_invalidate_other _ _ _ hsame]
        apply foldl_invalidate_mem
        rw [hds]
        exact hd
    · rw [hcdc, cacheValid_invalidate_other _ _ _ hk1]
      by_cases hcas : cascadeCond w it name = true
      · rw [if_pos hcas]
        exact foldl_invalidate_frame _ w key hk2
      · rw [if_neg hcas]
    · rw [hcdc, if_neg (by simp [hcas]), cacheValid_invalidate_other _ _ _ hk1]
    · rw [hcdc]
      rcases hcas : cascadeCond w it name <;> simp [hcas, invalidateCache]
      exact (foldl_invalidate_world _ w).1
    · rw [hcdc]
      rcases hcas : cascadeCond w it name <;> simp [hcas, invalidateCache]
      exact (foldl_invalidate_world _ w).2
  · have hdis : w.settings.cacheEnabled = false := by simpa using hen
    have hcdc : cleanDictCache w fuel it name = w := by
      unfold cleanDictCache
      rw [hdis]
      rfl
    refine ⟨fun _ => hcdc, fun htr => absurd htr hen, fun htr => absurd htr hen,
      fun key _ _ => by rw [hcdc], fun htr => absurd htr hen, by rw [hcdc], by rw [hcdc]⟩

/-- Witness for `c3_clean_dict_cache`: mutating `_kernel_options` on the
sample world's top profile invalidates its own entry and its descendants'
entries (the subprofile and the system) and leaves the distro's untouched. -/
theorem c3_clean_dict_cache_witness :
    cacheValid
      (cleanDictCache sampleWorld 5 sampleProfile1 (some "_kernel_options"))
      (sampleProfile1.typeName, sampleProfile1.name) = false ∧
    cacheValid
      (cleanDictCache sampleWorld 5 sampleProfile1 (some "_kernel_options"))
      (sampleSystem.typeName, sampleSystem.name) = false ∧
    cacheValid
      (cleanDictCache sampleWorld 5 sampleProfile1 (some "_kernel_options"))
      ("distro", "d0") = cacheValid sampleWorld ("distro", "d0") :=
  ⟨(c3_clean_dict_cache sampleWorld 5 sampleProfile1 (some "_kernel_options")).2.1
      (by decide),
   (c3_clean_dict_cache sampleWorld 5 sampleProfile1 (some "_kernel_options")).2.2.1
      (by decide) (by decide) [sampleProfile2, sampleSystem] (by decide)
      sampleSystem (by simp),
   (c3_clean_dict_cache sampleWorld 5 sampleProfile1 (some "_kernel_options")).2.2.2.1
      ("distro", "d0") (by decide) (by decide)⟩
